import Mathlib

set_option autoImplicit false

/-!
Shallow embedding of the modl object-relational mapper (package `modl`).

The repository ships three files: `handle.go` (the `handle` interface and the
`tracingHandle` decorator), an unnamed file containing the `Transaction` type,
and `modl_test.go`.  The CRUD engine (`insert`, `update`, `deletes`, `get`,
`hookedselect`, `hookedget`), the `DbMap` registry and the dialects live in
files that are not part of the source snapshot; those parts are modelled from
the specification, and every such definition is marked `Modelled from the
spec:` in its doc comment.  `handle.go` and the `Transaction` file are embedded
directly from the source.
-/

namespace Modl

/-- Error kinds of the engine, from the spec's error-handling design:
optimistic-lock conflicts, the distinguished no-rows condition, hook errors
propagated verbatim, the executor's cancellation error, and driver errors. -/
inductive EngineErr where
  | optimisticLock
  | noRows
  | hookErr (code : Nat)
  | cancelled
  | driver (code : Nat)
deriving DecidableEq, Repr

/-- Result of an engine step: either a value or an `EngineErr`, mirroring the
Go `(value, error)` convention. -/
inductive Res (α : Type) where
  | ok (val : α)
  | err (e : EngineErr)
deriving DecidableEq, Repr

/-- A record of a registered type: a primary-key field, a version field (used
only when the table declares a version column) and the remaining non-key data
collapsed into one payload field. -/
structure Rec where
  id : Nat
  version : Int
  payload : Nat
deriving DecidableEq, Repr

/-- The optional lifecycle hooks a record type may implement, acting on the
record's non-key payload.  A hook may mutate the payload or fail with an
error that is propagated verbatim. -/
structure Hooks where
  preInsert : Nat → Res Nat
  postInsert : Nat → Res Nat
  preUpdate : Nat → Res Nat
  postUpdate : Nat → Res Nat
  preDelete : Nat → Res Nat
  postDelete : Nat → Res Nat
  postGet : Nat → Res Nat

/-- Hooks that do nothing: every hook returns its payload unchanged. -/
def pureHooks : Hooks :=
  ⟨Res.ok, Res.ok, Res.ok, Res.ok, Res.ok, Res.ok, Res.ok⟩

/-- A stored row matches a record's WHERE clause when the primary keys agree
and, on a versioned table, the stored version equals the record's in-memory
version. -/
def rowMatches (versioned : Bool) (r row : Rec) : Bool :=
  row.id == r.id && (!versioned || row.version == r.version)

/-- Number of stored rows affected by the UPDATE/DELETE statement built for
record `r`: the rows matching its primary key (and version, when the table is
versioned). -/
def affectedCount (versioned : Bool) (db : List Rec) (r : Rec) : Nat :=
  (db.filter (rowMatches versioned r)).length

/-- Generated key for an auto-increment primary key column: one more than the
largest key in the table, hence never zero. -/
def nextKey (db : List Rec) : Nat :=
  (db.foldl (fun m row => max m row.id) 0) + 1

/-- Modelled from the spec: the engine's per-record insert (the body of
`insert` in the missing dbmap.go).  Invokes the pre-insert hook (hook failure
aborts with that error and executes no SQL for the record), initializes the
version column to 1 when the table is versioned, executes the INSERT, writes
the generated key back into the record, and invokes the post-insert hook.
Returns the new table state and the updated in-memory record. -/
def insertOne (versioned : Bool) (hooks : Hooks) (db : List Rec) (r : Rec) :
    List Rec × Res Rec :=
  match hooks.preInsert r.payload with
  | .err e => (db, .err e)
  | .ok p =>
    let key := nextKey db
    let v : Int := if versioned then 1 else r.version
    let row : Rec := ⟨key, v, p⟩
    match hooks.postInsert p with
    | .err e => (db ++ [row], .err e)
    | .ok p2 => (db ++ [row], .ok ⟨key, v, p2⟩)

/-- Modelled from the spec: `insert` of the missing dbmap.go over a record
list.  Records are processed in order and a failure aborts processing of the
remaining records (fail-fast).  On success returns the updated in-memory
records. -/
def insertList (versioned : Bool) (hooks : Hooks) :
    List Rec → List Rec → List Rec × Res (List Rec)
  | db, [] => (db, .ok [])
  | db, r :: rs =>
    match insertOne versioned hooks db r with
    | (db1, .err e) => (db1, .err e)
    | (db1, .ok r1) =>
      match insertList versioned hooks db1 rs with
      | (db2, .err e) => (db2, .err e)
      | (db2, .ok rs1) => (db2, .ok (r1 :: rs1))

/-- Modelled from the spec: the engine's per-record update (the body of
`update` in the missing dbmap.go).  Invokes the pre-update hook; builds an
UPDATE whose WHERE clause matches the primary key plus the old version on a
versioned table and whose SET clause increments the version; on zero affected
rows on a versioned table fails with the optimistic-lock error; the in-memory
version field is updated to match only when the statement affected exactly
one row; the post-update hook runs only on statement success.  Returns the
new table state, the in-memory record, and the affected-row count. -/
def updateOne (versioned : Bool) (hooks : Hooks) (db : List Rec) (r : Rec) :
    List Rec × Rec × Res Nat :=
  match hooks.preUpdate r.payload with
  | .err e => (db, r, .err e)
  | .ok p =>
    let affected := affectedCount versioned db r
    if versioned && affected == 0 then
      (db, ⟨r.id, r.version, p⟩, .err .optimisticLock)
    else
      let newVer : Int := if versioned then r.version + 1 else r.version
      let db1 := db.map (fun row =>
        if rowMatches versioned r row then ⟨row.id, newVer, p⟩ else row)
      let memVer : Int :=
        if versioned && affected == 1 then r.version + 1 else r.version
      match hooks.postUpdate p with
      | .err e => (db1, ⟨r.id, memVer, p⟩, .err e)
      | .ok p2 => (db1, ⟨r.id, memVer, p2⟩, .ok affected)

/-- Modelled from the spec: the engine's per-record delete (the body of
`deletes` in the missing dbmap.go).  Symmetric to update: pre/post-delete
hooks, WHERE on primary key plus version when versioned, optimistic-lock
failure on zero affected rows when versioned. -/
def deleteOne (versioned : Bool) (hooks : Hooks) (db : List Rec) (r : Rec) :
    List Rec × Res Nat :=
  match hooks.preDelete r.payload with
  | .err e => (db, .err e)
  | .ok p =>
    let affected := affectedCount versioned db r
    if versioned && affected == 0 then
      (db, .err .optimisticLock)
    else
      let db1 := db.filter (fun row => !(rowMatches versioned r row))
      match hooks.postDelete p with
      | .err e => (db1, .err e)
      | .ok _ => (db1, .ok affected)

/-- Modelled from the spec: the batch loop shared by `update` and `deletes` of
the missing dbmap.go.  Processes records in order, fail-fast; the aggregate
count is the sum of the per-record affected rows on success and is forced to
-1 when any record fails (in particular on an optimistic-lock conflict,
regardless of how many records preceded it successfully). -/
def batchRun (step : List Rec → Rec → List Rec × Res Nat) :
    List Rec → List Rec → List Rec × Int × Option EngineErr
  | db, [] => (db, 0, none)
  | db, r :: rs =>
    match step db r with
    | (db1, .err e) => (db1, -1, some e)
    | (db1, .ok n) =>
      match batchRun step db1 rs with
      | (db2, _, some e) => (db2, -1, some e)
      | (db2, c, none) => (db2, (n : Int) + c, none)

/-- The per-record update step, forgetting the in-memory record. -/
def updateStep (versioned : Bool) (hooks : Hooks) (db : List Rec) (r : Rec) :
    List Rec × Res Nat :=
  ((updateOne versioned hooks db r).1, (updateOne versioned hooks db r).2.2)

/-- Modelled from the spec: `update` of the missing dbmap.go over a record
list, returning (table state, aggregate affected count, error). -/
def update (versioned : Bool) (hooks : Hooks) (db rs : List Rec) :
    List Rec × Int × Option EngineErr :=
  batchRun (updateStep versioned hooks) db rs

/-- Modelled from the spec: `deletes` of the missing dbmap.go over a record
list, returning (table state, aggregate affected count, error). -/
def deletes (versioned : Bool) (hooks : Hooks) (db rs : List Rec) :
    List Rec × Int × Option EngineErr :=
  batchRun (deleteOne versioned hooks) db rs

/-- Modelled from the spec: `get` of the missing dbmap.go.  Builds a SELECT by
primary key; zero matching rows is surfaced as the distinguished no-rows
condition; otherwise the first scanned row is bound into the destination and
its post-get hook runs. -/
def get (hooks : Hooks) (db : List Rec) (key : Nat) : Res Rec :=
  match db.filter (fun row => row.id == key) with
  | [] => .err .noRows
  | row :: _ =>
    match hooks.postGet row.payload with
    | .err e => .err e
    | .ok p => .ok ⟨row.id, row.version, p⟩

/-- Modelled from the spec: `hookedget` of the missing dbmap.go (SelectOne),
applied to the result set of the caller's query.  An empty result set
surfaces the distinguished no-rows condition; otherwise exactly the first row
is bound into the destination and its post-get hook runs; two or more rows
are not an error. -/
def selectOne (hooks : Hooks) (rows : List Rec) : Res Rec :=
  match rows with
  | [] => .err .noRows
  | row :: _ =>
    match hooks.postGet row.payload with
    | .err e => .err e
    | .ok p => .ok ⟨row.id, row.version, p⟩

/-- A table mapping held by the registry: the record type's identity and the
bound table name. -/
structure TableMap where
  typeId : Nat
  tableName : String
deriving DecidableEq, Repr

/-- Modelled from the spec: the registry's table-mapping store (the `tables`
field of the missing `DbMap`).  A mapping instance is identified by its
position in the store, which never shrinks; two references denote the same
instance exactly when they carry the same position. -/
structure Registry where
  tables : List TableMap
deriving DecidableEq, Repr

/-- Position of the cached mapping for a record type in the store, if any. -/
def findTableIdx : List TableMap → Nat → Option Nat
  | [], _ => none
  | t :: ts, ty => if t.typeId == ty then some 0 else (findTableIdx ts ty).map Nat.succ

/-- Modelled from the spec: `AddTable` of the missing `DbMap`.  Registering a
record type derives a mapping and caches it; re-registering an
already-registered type is a no-op returning the cached mapping instance
rather than creating a duplicate. -/
def addTable (reg : Registry) (ty : Nat) (name : String) : Registry × Nat :=
  match findTableIdx reg.tables ty with
  | some i => (reg, i)
  | none => (⟨reg.tables ++ [⟨ty, name⟩]⟩, reg.tables.length)

/-!  The handle layer, embedded from `handle.go` and the `Transaction` file. -/

/-- An execution context: either live or already cancelled. -/
inductive Ctx where
  | live
  | cancelled
deriving DecidableEq, Repr

/-- One line written to the trace sink: the statement text and its
arguments. -/
structure TraceEntry where
  query : String
  args : List Nat
deriving DecidableEq, Repr

/-- Modelled from the spec: the observable part of the missing `DbMap` used by
the handle layer — whether tracing is enabled (tracing is opt-in and off by
default). -/
structure DbMapT where
  traceOn : Bool
deriving DecidableEq, Repr

/-- Modelled from the spec: `DbMap.trace` of the missing dbmap.go.  Writes one
statement-plus-arguments line to the configured sink when tracing is enabled
and is a no-op otherwise.  Returns the entries emitted. -/
def trace (d : DbMapT) (q : String) (args : List Nat) : List TraceEntry :=
  if d.traceOn then [⟨q, args⟩] else []

/-- The `handle` interface of handle.go: Select, Get, Queryx, QueryRowx, Exec
and their context-aware variants.  `Select` and `Get` additionally carry the
caller's destination (a token standing for the Go destination pointer).  Each
method returns the trace entries it emits alongside its result. -/
structure Handle where
  Select : Nat → String → List Nat → List TraceEntry × Res (List Rec)
  Get : Nat → String → List Nat → List TraceEntry × Res Rec
  Queryx : String → List Nat → List TraceEntry × Res (List Rec)
  QueryRowx : String → List Nat → List TraceEntry × Option Rec
  Exec : String → List Nat → List TraceEntry × Res Nat
  SelectContext : Ctx → Nat → String → List Nat → List TraceEntry × Res (List Rec)
  GetContext : Ctx → Nat → String → List Nat → List TraceEntry × Res Rec
  QueryxContext : Ctx → String → List Nat → List TraceEntry × Res (List Rec)
  QueryRowxContext : Ctx → String → List Nat → List TraceEntry × Option Rec
  ExecContext : Ctx → String → List Nat → List TraceEntry × Res Nat

/-- `tracingHandle` of handle.go: every method first calls `t.d.trace` with
the statement text and arguments and then forwards the identical destination,
context, query and arguments to the inner handle `t.h`, returning the inner
handle's result. -/
def tracingHandle (d : DbMapT) (h : Handle) : Handle where
  Select dest q a :=
    ((trace d q a) ++ (h.Select dest q a).1, (h.Select dest q a).2)
  Get dest q a :=
    ((trace d q a) ++ (h.Get dest q a).1, (h.Get dest q a).2)
  Queryx q a :=
    ((trace d q a) ++ (h.Queryx q a).1, (h.Queryx q a).2)
  QueryRowx q a :=
    ((trace d q a) ++ (h.QueryRowx q a).1, (h.QueryRowx q a).2)
  Exec q a :=
    ((trace d q a) ++ (h.Exec q a).1, (h.Exec q a).2)
  SelectContext c dest q a :=
    ((trace d q a) ++ (h.SelectContext c dest q a).1, (h.SelectContext c dest q a).2)
  GetContext c dest q a :=
    ((trace d q a) ++ (h.GetContext c dest q a).1, (h.GetContext c dest q a).2)
  QueryxContext c q a :=
    ((trace d q a) ++ (h.QueryxContext c q a).1, (h.QueryxContext c q a).2)
  QueryRowxContext c q a :=
    ((trace d q a) ++ (h.QueryRowxContext c q a).1, (h.QueryRowxContext c q a).2)
  ExecContext c q a :=
    ((trace d q a) ++ (h.ExecContext c q a).1, (h.ExecContext c q a).2)

/-- The external transactional executor (`sqlx.Tx`), an opaque collaborator:
deterministic behavior functions for each base operation. -/
structure SqlxTx where
  selectF : Nat → String → List Nat → Res (List Rec)
  getF : Nat → String → List Nat → Res Rec
  queryxF : String → List Nat → Res (List Rec)
  queryRowxF : String → List Nat → Option Rec
  execF : String → List Nat → Res Nat

/-- Modelled from the spec: the executor's context-aware variants abort the
in-flight statement and surface the executor's cancellation error when the
context is cancelled mid-call. -/
def ctxGuard {α : Type} (c : Ctx) (base : Res α) : Res α :=
  if c = Ctx.cancelled then .err .cancelled else base

/-- The `handle` implementation backed by an `sqlx.Tx`: base methods run the
executor directly, context-aware methods run its cancellation-aware variants;
the executor itself emits no trace. -/
def txHandle (tx : SqlxTx) : Handle where
  Select dest q a := ([], tx.selectF dest q a)
  Get dest q a := ([], tx.getF dest q a)
  Queryx q a := ([], tx.queryxF q a)
  QueryRowx q a := ([], tx.queryRowxF q a)
  Exec q a := ([], tx.execF q a)
  SelectContext c dest q a := ([], ctxGuard c (tx.selectF dest q a))
  GetContext c dest q a := ([], ctxGuard c (tx.getF dest q a))
  QueryxContext c q a := ([], ctxGuard c (tx.queryxF q a))
  QueryRowxContext c q a :=
    ([], if c = Ctx.cancelled then none else tx.queryRowxF q a)
  ExecContext c q a := ([], ctxGuard c (tx.execF q a))

/-- `Transaction` of the source: the owning registry and the underlying
transactional executor. -/
structure Transaction where
  dbmap : DbMapT
  Tx : SqlxTx

/-- `Transaction.handle()` of the source: always constructs a tracing handle
over the transactional executor, holding the owning registry. -/
def Transaction.handle (t : Transaction) : Handle :=
  tracingHandle t.dbmap (txHandle t.Tx)

/-- `Transaction.ExecContext` of the source: traces through the owning
registry and then runs the statement via the executor's plain `Exec` — the
received context is not forwarded. -/
def Transaction.ExecContext (t : Transaction) (_ctx : Ctx) (q : String)
    (a : List Nat) : List TraceEntry × Res Nat :=
  (trace t.dbmap q a, t.Tx.execF q a)

/-- Modelled from the spec: the statement loop of the engine's insert/update/
delete as seen from the handle layer — each generated statement is executed
through the handle's context-aware exec, fail-fast, the context being
forwarded unchanged. -/
def runStmts (h : Handle) (c : Ctx) :
    List (String × List Nat) → List TraceEntry × Option EngineErr
  | [] => ([], none)
  | (q, a) :: rest =>
    match h.ExecContext c q a with
    | (tr, .err e) => (tr, some e)
    | (tr, .ok _) =>
      let r := runStmts h c rest
      (tr ++ r.1, r.2)

/-- Modelled from the spec: the engine function `insert` of the missing
dbmap.go, at the handle layer: runs the records' INSERT statements through
the executor handle. -/
def insertEngine (h : Handle) (c : Ctx) (stmts : List (String × List Nat)) :
    List TraceEntry × Option EngineErr :=
  runStmts h c stmts

/-- Modelled from the spec: the engine function `update` of the missing
dbmap.go, at the handle layer. -/
def updateEngine (h : Handle) (c : Ctx) (stmts : List (String × List Nat)) :
    List TraceEntry × Option EngineErr :=
  runStmts h c stmts

/-- Modelled from the spec: the engine function `deletes` of the missing
dbmap.go, at the handle layer. -/
def deleteEngine (h : Handle) (c : Ctx) (stmts : List (String × List Nat)) :
    List TraceEntry × Option EngineErr :=
  runStmts h c stmts

/-- Modelled from the spec: the engine function `get` of the missing
dbmap.go, at the handle layer: fetches one row by primary key through the
handle's context-aware get. -/
def getEngine (h : Handle) (c : Ctx) (dest : Nat) (q : String) (keys : List Nat) :
    List TraceEntry × Res Rec :=
  h.GetContext c dest q keys

/-- Modelled from the spec: the engine function `hookedselect` of the missing
dbmap.go, at the handle layer: runs the caller's query through the handle's
context-aware select. -/
def hookedselectEngine (h : Handle) (c : Ctx) (dest : Nat) (q : String)
    (a : List Nat) : List TraceEntry × Res (List Rec) :=
  h.SelectContext c dest q a

/-- Modelled from the spec: the engine function `hookedget` of the missing
dbmap.go (SelectOne), at the handle layer: fetches the first row of the
caller's query through the handle's context-aware get. -/
def hookedgetEngine (h : Handle) (c : Ctx) (dest : Nat) (q : String)
    (a : List Nat) : List TraceEntry × Res Rec :=
  h.GetContext c dest q a

/-- `Transaction.InsertContext` of the source: delegates to the engine insert
with the transaction's registry and its own handle. -/
def Transaction.InsertContext (t : Transaction) (c : Ctx)
    (stmts : List (String × List Nat)) : List TraceEntry × Option EngineErr :=
  insertEngine (Transaction.handle t) c stmts

/-- `Transaction.UpdateContext` of the source: delegates to the engine
update. -/
def Transaction.UpdateContext (t : Transaction) (c : Ctx)
    (stmts : List (String × List Nat)) : List TraceEntry × Option EngineErr :=
  updateEngine (Transaction.handle t) c stmts

/-- `Transaction.DeleteContext` of the source: delegates to the engine
delete (`deletes`). -/
def Transaction.DeleteContext (t : Transaction) (c : Ctx)
    (stmts : List (String × List Nat)) : List TraceEntry × Option EngineErr :=
  deleteEngine (Transaction.handle t) c stmts

/-- `Transaction.GetContext` of the source: delegates to the engine get. -/
def Transaction.GetContext (t : Transaction) (c : Ctx) (dest : Nat)
    (q : String) (keys : List Nat) : List TraceEntry × Res Rec :=
  getEngine (Transaction.handle t) c dest q keys

/-- `Transaction.SelectContext` of the source: delegates to the engine
`hookedselect`. -/
def Transaction.SelectContext (t : Transaction) (c : Ctx) (dest : Nat)
    (q : String) (a : List Nat) : List TraceEntry × Res (List Rec) :=
  hookedselectEngine (Transaction.handle t) c dest q a

/-- `Transaction.SelectOneContext` of the source: delegates to the engine
`hookedget`. -/
def Transaction.SelectOneContext (t : Transaction) (c : Ctx) (dest : Nat)
    (q : String) (a : List Nat) : List TraceEntry × Res Rec :=
  hookedgetEngine (Transaction.handle t) c dest q a

/-- Modelled from the spec: the Registry's InsertContext, with the executor
handle it uses made an explicit parameter (normally its connection handle):
it delegates to the engine insert. -/
def dbInsertVia (h : Handle) (c : Ctx) (stmts : List (String × List Nat)) :
    List TraceEntry × Option EngineErr :=
  insertEngine h c stmts

/-- Modelled from the spec: the Registry's UpdateContext over an explicit
executor handle. -/
def dbUpdateVia (h : Handle) (c : Ctx) (stmts : List (String × List Nat)) :
    List TraceEntry × Option EngineErr :=
  updateEngine h c stmts

/-- Modelled from the spec: the Registry's DeleteContext over an explicit
executor handle. -/
def dbDeleteVia (h : Handle) (c : Ctx) (stmts : List (String × List Nat)) :
    List TraceEntry × Option EngineErr :=
  deleteEngine h c stmts

/-- Modelled from the spec: the Registry's GetContext over an explicit
executor handle. -/
def dbGetVia (h : Handle) (c : Ctx) (dest : Nat) (q : String)
    (keys : List Nat) : List TraceEntry × Res Rec :=
  getEngine h c dest q keys

/-- Modelled from the spec: the Registry's SelectContext over an explicit
executor handle. -/
def dbSelectVia (h : Handle) (c : Ctx) (dest : Nat) (q : String)
    (a : List Nat) : List TraceEntry × Res (List Rec) :=
  hookedselectEngine h c dest q a

/-- Modelled from the spec: the Registry's SelectOneContext over an explicit
executor handle. -/
def dbSelectOneVia (h : Handle) (c : Ctx) (dest : Nat) (q : String)
    (a : List Nat) : List TraceEntry × Res Rec :=
  hookedgetEngine h c dest q a

/-- Modelled from the spec: the Registry's ExecContext over an explicit
executor handle: raw exec forwards the context to the handle's context-aware
exec. -/
def dbExecVia (h : Handle) (c : Ctx) (q : String) (a : List Nat) :
    List TraceEntry × Res Nat :=
  h.ExecContext c q a

/-! Helper lemmas. -/

/-- Appending a mapping for a type not yet registered puts it at the end of
the store; lookup then finds it there. -/
lemma findTableIdx_append_self (ts : List TableMap) (ty : Nat) (name : String)
    (h : findTableIdx ts ty = none) :
    findTableIdx (ts ++ [⟨ty, name⟩]) ty = some ts.length := by
  induction ts with
  | nil => simp [findTableIdx]
  | cons t ts ih =>
    rw [findTableIdx] at h
    by_cases ht : (t.typeId == ty) = true
    · rw [if_pos ht] at h
      simp at h
    · rw [if_neg ht] at h
      have hrec : findTableIdx ts ty = none := by
        rcases hx : findTableIdx ts ty with _ | k
        · rfl
        · rw [hx] at h
          simp at h
      show findTableIdx (t :: (ts ++ [⟨ty, name⟩])) ty = some (ts.length + 1)
      rw [findTableIdx, if_neg ht, ih hrec]
      rfl

/-- A successful per-record insert on a versioned table returns an in-memory
record whose version field is 1. -/
lemma insertOne_version_eq_one (hooks : Hooks) (db db1 : List Rec) (r r1 : Rec)
    (h : insertOne true hooks db r = (db1, .ok r1)) : r1.version = 1 := by
  unfold insertOne at h
  rcases hp : hooks.preInsert r.payload with p | e
  · rw [hp] at h
    simp only at h
    rcases hq : hooks.postInsert p with p2 | e
    · rw [hq] at h
      simp only [Prod.mk.injEq, Res.ok.injEq] at h
      rw [← h.2]
      simp
    · rw [hq] at h
      simp at h
  · rw [hp] at h
    simp at h

/-- If the batch loop succeeds on a first segment and the step fails on the
next record, the whole batch returns count -1 and that error. -/
lemma batchRun_mid_err (step : List Rec → Rec → List Rec × Res Nat)
    (db dbp : List Rec) (c : Int) (l1 l2 : List Rec) (r : Rec) (e : EngineErr)
    (h1 : batchRun step db l1 = (dbp, c, none))
    (h2 : (step dbp r).2 = .err e) :
    (batchRun step db (l1 ++ r :: l2)).2 = (-1, some e) := by
  induction l1 generalizing db c with
  | nil =>
    simp only [batchRun, Prod.mk.injEq] at h1
    obtain ⟨hdb, -, -⟩ := h1
    subst hdb
    rw [List.nil_append, batchRun]
    rcases hs : step db r with ⟨db1, res⟩
    rw [hs] at h2
    simp only at h2
    subst h2
    simp
  | cons a l ih =>
    simp only [List.cons_append]
    rw [batchRun] at h1 ⊢
    rcases hs : step db a with ⟨db1, res⟩
    rw [hs] at h1
    rcases res with n | e1
    · simp only at h1 ⊢
      rcases hb : batchRun step db1 l with ⟨db2, c2, r2⟩
      rw [hb] at h1
      rcases r2 with _ | e2
      · simp only [Prod.mk.injEq] at h1
        obtain ⟨hdb2, -, -⟩ := h1
        subst hdb2
        have hmain := ih db1 c2 hb
        rcases hb2 : batchRun step db1 (l ++ r :: l2) with ⟨db3, c3, r3⟩
        rw [hb2] at hmain
        simp only [Prod.mk.injEq] at hmain
        obtain ⟨hc3, hr3⟩ := hmain
        subst hc3
        subst hr3
        simp
      · simp at h1
    · simp at h1

/-- On a table whose stored rows carry pairwise-distinct primary keys, at most
one row matches any WHERE clause that pins the primary key. -/
lemma affectedCount_le_one (versioned : Bool) (db : List Rec) (r : Rec)
    (hw : db.Pairwise (fun a b => a.id ≠ b.id)) :
    affectedCount versioned db r ≤ 1 := by
  unfold affectedCount
  induction db with
  | nil => simp
  | cons a l ih =>
    rw [List.pairwise_cons] at hw
    rw [List.filter_cons]
    by_cases hp : (rowMatches versioned r a) = true
    · rw [if_pos hp]
      have hnil : l.filter (rowMatches versioned r) = [] := by
        rw [List.filter_eq_nil_iff]
        intro x hx hpx
        have hxa : x.id = r.id := by
          have h1 := hpx
          unfold rowMatches at h1
          rw [Bool.and_eq_true] at h1
          simpa using h1.1
        have haa : a.id = r.id := by
          have h1 := hp
          unfold rowMatches at h1
          rw [Bool.and_eq_true] at h1
          simpa using h1.1
        exact hw.1 x hx (by rw [hxa, haa])
      rw [hnil]
      simp
    · rw [if_neg hp]
      exact ih hw.2

/-! Claim theorems. -/

/-- Claim C7: registering a record type a second time with the same Registry
returns the identical table-mapping instance produced by the first
registration, and the registry is unchanged (no duplicate mapping). -/
theorem addTable_idempotent (reg : Registry) (ty : Nat) (name name2 : String) :
    addTable (addTable reg ty name).1 ty name2 = addTable reg ty name := by
  unfold addTable
  rcases hf : findTableIdx reg.tables ty with _ | i
  · simp only
    rw [findTableIdx_append_self reg.tables ty name hf]
  · simp only
    rw [hf]

/-- Claim C8: get of a primary key with no matching row returns the
distinguished no-rows error; SelectOne over an empty result set returns the
same no-rows error; SelectOne over a result set of one or more rows (in
particular two or more) returns no error and binds exactly the first row
(after its post-get hook) into the destination. -/
theorem get_selectOne_noRows :
    (∀ (hooks : Hooks) (db : List Rec) (key : Nat),
      (∀ row ∈ db, row.id ≠ key) → get hooks db key = .err .noRows)
    ∧ (∀ hooks : Hooks, selectOne hooks [] = .err .noRows)
    ∧ (∀ (hooks : Hooks) (row : Rec) (rows : List Rec) (p : Nat),
      hooks.postGet row.payload = .ok p →
      selectOne hooks (row :: rows) = .ok ⟨row.id, row.version, p⟩) := by
  refine ⟨fun hooks db key hnone => ?_, fun hooks => rfl, fun hooks row rows p hp => ?_⟩
  · unfold get
    have : db.filter (fun row => row.id == key) = [] := by
      rw [List.filter_eq_nil_iff]
      intro x hx
      simpa using hnone x hx
    rw [this]
  · simp [selectOne, hp]

/-- Concrete dataset used by witnesses. -/
def rowA : Rec := ⟨1, 1, 0⟩

/-- Second concrete row used by witnesses. -/
def rowB : Rec := ⟨2, 1, 0⟩

/-- Witness for claim C8 at concrete inputs. -/
theorem get_selectOne_noRows_witness :
    get pureHooks [rowA] 2 = .err .noRows
    ∧ selectOne pureHooks [] = .err .noRows
    ∧ selectOne pureHooks [rowA, rowB] = .ok ⟨1, 1, 0⟩ :=
  ⟨get_selectOne_noRows.1 pureHooks [rowA] 2 (by decide),
   get_selectOne_noRows.2.1 pureHooks,
   get_selectOne_noRows.2.2 pureHooks rowA [rowB] 0 rfl⟩

/-- Claim C2: on a versioned table, a successful Insert sets the in-memory
version field of every record of the call to 1. -/
theorem insert_sets_version_one (hooks : Hooks) (db db2 rs rs2 : List Rec)
    (h : insertList true hooks db rs = (db2, .ok rs2)) :
    ∀ r ∈ rs2, r.version = 1 := by
  induction rs generalizing db db2 rs2 with
  | nil =>
    rw [insertList] at h
    simp only [Prod.mk.injEq, Res.ok.injEq] at h
    rw [← h.2]
    simp
  | cons a l ih =>
    rw [insertList] at h
    rcases hs : insertOne true hooks db a with ⟨db1, res⟩
    rw [hs] at h
    rcases res with r1 | e
    · simp only at h
      rcases hb : insertList true hooks db1 l with ⟨db3, res2⟩
      rw [hb] at h
      rcases res2 with rs1 | e
      · simp only [Prod.mk.injEq, Res.ok.injEq] at h
        rw [← h.2]
        intro r hr
        rcases List.mem_cons.mp hr with hr1 | hr2
        · rw [hr1]
          exact insertOne_version_eq_one hooks db db1 a r1 hs
        · exact ih db1 db3 rs1 hb r hr2
      · simp at h
    · simp at h

/-- Witness for claim C2: a concrete two-record insert into an empty versioned
table, with every resulting record carrying version 1. -/
theorem insert_sets_version_one_witness :
    insertList true pureHooks [] [⟨0, 0, 5⟩, ⟨0, 0, 6⟩]
      = ([⟨1, 1, 5⟩, ⟨2, 1, 6⟩], .ok [⟨1, 1, 5⟩, ⟨2, 1, 6⟩])
    ∧ (⟨2, 1, 6⟩ : Rec).version = 1 :=
  ⟨rfl,
   insert_sets_version_one pureHooks [] [⟨1, 1, 5⟩, ⟨2, 1, 6⟩]
     [⟨0, 0, 5⟩, ⟨0, 0, 6⟩] [⟨1, 1, 5⟩, ⟨2, 1, 6⟩] rfl ⟨2, 1, 6⟩ (by simp)⟩

/-- Claim C3: on a versioned table whose stored rows carry distinct primary
keys, and for record types whose post-update hook does not fail, a successful
Update increments the record's in-memory version field by exactly 1, and a
failed Update leaves the in-memory version field unchanged. -/
theorem update_version_protocol (hooks : Hooks) (db : List Rec) (r : Rec)
    (hw : db.Pairwise (fun a b => a.id ≠ b.id))
    (hpost : ∀ p, ∃ q, hooks.postUpdate p = .ok q) :
    (∀ db1 r1 n, updateOne true hooks db r = (db1, r1, .ok n) →
      r1.version = r.version + 1)
    ∧ (∀ db1 r1 e, updateOne true hooks db r = (db1, r1, .err e) →
      r1.version = r.version) := by
  constructor
  · intro db1 r1 n h
    unfold updateOne at h
    rcases hp : hooks.preUpdate r.payload with p | e0
    · rw [hp] at h
      simp only at h
      by_cases ha : affectedCount true db r = 0
      · rw [ha] at h
        simp at h
      · have hA : affectedCount true db r = 1 :=
          le_antisymm (affectedCount_le_one true db r hw)
            (Nat.one_le_iff_ne_zero.mpr ha)
        rw [hA] at h
        simp only [Nat.reduceBEq, Bool.and_false, Bool.false_eq_true,
          if_false] at h
        rcases hq : hooks.postUpdate p with p2 | e1
        · rw [hq] at h
          simp only [Prod.mk.injEq] at h
          rw [← h.2.1]
          simp
        · rw [hq] at h
          simp at h
    · rw [hp] at h
      simp at h
  · intro db1 r1 e h
    unfold updateOne at h
    rcases hp : hooks.preUpdate r.payload with p | e0
    · rw [hp] at h
      simp only at h
      by_cases ha : affectedCount true db r = 0
      · rw [ha] at h
        simp only [Nat.reduceBEq, Bool.and_true, if_true] at h
        simp only [Prod.mk.injEq] at h
        rw [← h.2.1]
      · have hA : affectedCount true db r = 1 :=
          le_antisymm (affectedCount_le_one true db r hw)
            (Nat.one_le_iff_ne_zero.mpr ha)
        rw [hA] at h
        simp only [Nat.reduceBEq, Bool.and_false, Bool.false_eq_true,
          if_false] at h
        obtain ⟨q, hq⟩ := hpost p
        rw [hq] at h
        simp at h
    · rw [hp] at h
      simp only [Prod.mk.injEq] at h
      rw [← h.2.1]

/-- Witness for claim C3: a matching-version update increments the in-memory
version from 1 to 2; a stale-version update fails and leaves it at 1. -/
theorem update_version_protocol_witness :
    (updateOne true pureHooks [⟨1, 1, 0⟩] ⟨1, 1, 5⟩).2.1.version = 1 + 1
    ∧ (updateOne true pureHooks [⟨1, 9, 0⟩] ⟨1, 1, 5⟩).2.1.version = 1 :=
  ⟨(update_version_protocol pureHooks [⟨1, 1, 0⟩] ⟨1, 1, 5⟩ (by simp)
      (fun p => ⟨p, rfl⟩)).1 [⟨1, 2, 5⟩] ⟨1, 2, 5⟩ 1 rfl,
   (update_version_protocol pureHooks [⟨1, 9, 0⟩] ⟨1, 1, 5⟩ (by simp)
      (fun p => ⟨p, rfl⟩)).2 [⟨1, 9, 0⟩] ⟨1, 1, 5⟩ .optimisticLock rfl⟩

/-- Claim C1: on a versioned table, an Update or Delete batch in which some
record's in-memory version no longer matches the stored version (its
statement affects zero rows) returns the optimistic-lock error with aggregate
count -1, even when the records before it in the batch succeeded. -/
theorem batch_lock_error :
    (∀ (hooks : Hooks) (db dbp : List Rec) (c : Int) (l1 l2 : List Rec)
      (r : Rec) (p : Nat),
      update true hooks db l1 = (dbp, c, none) →
      hooks.preUpdate r.payload = .ok p →
      affectedCount true dbp r = 0 →
      (update true hooks db (l1 ++ r :: l2)).2 = (-1, some .optimisticLock))
    ∧ (∀ (hooks : Hooks) (db dbp : List Rec) (c : Int) (l1 l2 : List Rec)
      (r : Rec) (p : Nat),
      deletes true hooks db l1 = (dbp, c, none) →
      hooks.preDelete r.payload = .ok p →
      affectedCount true dbp r = 0 →
      (deletes true hooks db (l1 ++ r :: l2)).2 = (-1, some .optimisticLock)) := by
  constructor
  · intro hooks db dbp c l1 l2 r p h1 hp ha
    apply batchRun_mid_err _ db dbp c l1 l2 r _ h1
    unfold updateStep updateOne
    rw [hp, ha]
    simp
  · intro hooks db dbp c l1 l2 r p h1 hp ha
    apply batchRun_mid_err _ db dbp c l1 l2 r _ h1
    unfold deleteOne
    rw [hp, ha]
    simp

/-- Witness for claim C1: a two-record batch whose first record updates (and
deletes) cleanly and whose second record carries a stale version; the batch
result is count -1 with the optimistic-lock error. -/
theorem batch_lock_error_witness :
    (update true pureHooks [⟨1, 1, 0⟩, ⟨2, 1, 0⟩] [⟨1, 1, 7⟩, ⟨2, 9, 8⟩]).2
      = (-1, some .optimisticLock)
    ∧ (deletes true pureHooks [⟨1, 1, 0⟩, ⟨2, 1, 0⟩] [⟨1, 1, 7⟩, ⟨2, 9, 8⟩]).2
      = (-1, some .optimisticLock) :=
  ⟨batch_lock_error.1 pureHooks [⟨1, 1, 0⟩, ⟨2, 1, 0⟩] [⟨1, 2, 7⟩, ⟨2, 1, 0⟩]
     1 [⟨1, 1, 7⟩] [] ⟨2, 9, 8⟩ 8 rfl rfl rfl,
   batch_lock_error.2 pureHooks [⟨1, 1, 0⟩, ⟨2, 1, 0⟩] [⟨2, 1, 0⟩]
     1 [⟨1, 1, 7⟩] [] ⟨2, 9, 8⟩ 8 rfl rfl rfl⟩

/-- Claim C9: when a record's pre-insert hook returns an error, the insert
call returns exactly that error and executes no SQL for that record — the
table state stays exactly as it was after the records preceding it in the
call. -/
theorem preinsert_error_aborts (versioned : Bool) (hooks : Hooks)
    (db dbp done l1 l2 : List Rec) (r : Rec) (e : EngineErr)
    (h1 : insertList versioned hooks db l1 = (dbp, .ok done))
    (h2 : hooks.preInsert r.payload = .err e) :
    insertList versioned hooks db (l1 ++ r :: l2) = (dbp, .err e) := by
  induction l1 generalizing db dbp done with
  | nil =>
    rw [insertList] at h1
    simp only [Prod.mk.injEq, Res.ok.injEq] at h1
    obtain ⟨hdb, -⟩ := h1
    subst hdb
    rw [List.nil_append, insertList]
    unfold insertOne
    rw [h2]
  | cons a l ih =>
    simp only [List.cons_append]
    rw [insertList] at h1 ⊢
    rcases hs : insertOne versioned hooks db a with ⟨db1, res⟩
    rw [hs] at h1
    rcases res with r1 | e1
    · simp only at h1 ⊢
      rcases hb : insertList versioned hooks db1 l with ⟨db2, res2⟩
      rw [hb] at h1
      rcases res2 with rs1 | e2
      · simp only [Prod.mk.injEq, Res.ok.injEq] at h1
        obtain ⟨hdb2, -⟩ := h1
        subst hdb2
        rw [ih db1 db2 rs1 hb]
      · simp at h1
    · simp at h1

/-- Hooks whose pre-insert hook rejects payload 99 with a hook error and
otherwise does nothing. -/
def badHooks : Hooks :=
  { pureHooks with
    preInsert := fun p => if p == 99 then .err (.hookErr 7) else .ok p }

/-- Witness for claim C9: a batch whose first record inserts and whose second
record has a failing pre-insert hook; the call returns exactly the hook's
error and the table holds only the first record's row. -/
theorem preinsert_error_aborts_witness :
    insertList true badHooks [] [⟨0, 0, 1⟩, ⟨0, 0, 99⟩]
      = ([⟨1, 1, 1⟩], .err (.hookErr 7)) :=
  preinsert_error_aborts true badHooks [] [⟨1, 1, 1⟩] [⟨1, 1, 1⟩]
    [⟨0, 0, 1⟩] [] ⟨0, 0, 99⟩ (.hookErr 7) rfl rfl

/-- A concrete transactional executor used by counterexamples: every exec
reports 7 affected rows and the fetches return fixed values. -/
def txConst : SqlxTx where
  selectF := fun _ _ _ => .ok []
  getF := fun _ _ _ => .ok ⟨0, 0, 0⟩
  queryxF := fun _ _ => .ok []
  queryRowxF := fun _ _ => none
  execF := fun _ _ => .ok 7

/-- A concrete transaction over `txConst` with tracing off. -/
def tConst : Transaction := ⟨⟨false⟩, txConst⟩

/-- Claim C4 (amended): the Transaction methods Insert, Update, Delete, Get,
Select and SelectOne compute the same result as the corresponding Registry
methods with the transactional handle substituted for the connection handle —
each delegates to the same engine function the Registry uses.  (ExecContext
is the exception, settled by the counterexample.) -/
theorem transaction_delegates (t : Transaction) (c : Ctx)
    (stmts : List (String × List Nat)) (dest : Nat) (q : String)
    (a keys : List Nat) :
    Transaction.InsertContext t c stmts
      = dbInsertVia (Transaction.handle t) c stmts
    ∧ Transaction.UpdateContext t c stmts
      = dbUpdateVia (Transaction.handle t) c stmts
    ∧ Transaction.DeleteContext t c stmts
      = dbDeleteVia (Transaction.handle t) c stmts
    ∧ Transaction.GetContext t c dest q keys
      = dbGetVia (Transaction.handle t) c dest q keys
    ∧ Transaction.SelectContext t c dest q a
      = dbSelectVia (Transaction.handle t) c dest q a
    ∧ Transaction.SelectOneContext t c dest q a
      = dbSelectOneVia (Transaction.handle t) c dest q a :=
  ⟨rfl, rfl, rfl, rfl, rfl, rfl⟩

/-- Counterexample to claim C4 as stated: on a cancelled context,
`Transaction.ExecContext` does not compute the same result as the Registry's
exec with the transactional handle substituted — the former runs the
statement via the executor's plain exec and returns its result, while the
latter forwards the context and surfaces the cancellation error. -/
theorem transaction_exec_differs :
    Transaction.ExecContext tConst .cancelled "delete from person_test" []
      ≠ dbExecVia (Transaction.handle tConst) .cancelled
        "delete from person_test" [] := by
  intro h
  simp [Transaction.ExecContext, dbExecVia, Transaction.handle, tracingHandle,
    txHandle, tConst, txConst, trace, ctxGuard] at h

/-- Claim C5 evaluated at the failing input: `Transaction.ExecContext` with an
already-cancelled context still executes the statement via the executor's
non-context exec and returns its normal result, whereas the executor's
context-aware variant — which every CRUD entry point is required to use —
would abort with the cancellation error. -/
theorem execContext_drops_context :
    Transaction.ExecContext tConst .cancelled "update person_test" [1]
      = ([], .ok 7)
    ∧ (txHandle tConst.Tx).ExecContext .cancelled "update person_test" [1]
      = ([], .err .cancelled) :=
  ⟨rfl, rfl⟩

/-- Claim C6: with a sink configured, every method of the tracing wrapper
writes the statement text and arguments to the sink exactly once before
forwarding, forwards the identical destination, context, query and arguments
to the inner handle, and returns the inner handle's result unchanged. -/
theorem tracingHandle_spec (d : DbMapT) (h : Handle) (c : Ctx) (dest : Nat)
    (q : String) (a : List Nat) (ht : d.traceOn = true) :
    (tracingHandle d h).Select dest q a
      = (⟨q, a⟩ :: (h.Select dest q a).1, (h.Select dest q a).2)
    ∧ (tracingHandle d h).Get dest q a
      = (⟨q, a⟩ :: (h.Get dest q a).1, (h.Get dest q a).2)
    ∧ (tracingHandle d h).Queryx q a
      = (⟨q, a⟩ :: (h.Queryx q a).1, (h.Queryx q a).2)
    ∧ (tracingHandle d h).QueryRowx q a
      = (⟨q, a⟩ :: (h.QueryRowx q a).1, (h.QueryRowx q a).2)
    ∧ (tracingHandle d h).Exec q a
      = (⟨q, a⟩ :: (h.Exec q a).1, (h.Exec q a).2)
    ∧ (tracingHandle d h).SelectContext c dest q a
      = (⟨q, a⟩ :: (h.SelectContext c dest q a).1, (h.SelectContext c dest q a).2)
    ∧ (tracingHandle d h).GetContext c dest q a
      = (⟨q, a⟩ :: (h.GetContext c dest q a).1, (h.GetContext c dest q a).2)
    ∧ (tracingHandle d h).QueryxContext c q a
      = (⟨q, a⟩ :: (h.QueryxContext c q a).1, (h.QueryxContext c q a).2)
    ∧ (tracingHandle d h).QueryRowxContext c q a
      = (⟨q, a⟩ :: (h.QueryRowxContext c q a).1, (h.QueryRowxContext c q a).2)
    ∧ (tracingHandle d h).ExecContext c q a
      = (⟨q, a⟩ :: (h.ExecContext c q a).1, (h.ExecContext c q a).2) := by
  have htr : trace d q a = [⟨q, a⟩] := by
    rw [trace, if_pos ht]
  refine ⟨?_, ?_, ?_, ?_, ?_, ?_, ?_, ?_, ?_, ?_⟩ <;>
    simp [tracingHandle, htr]

/-- A registry with tracing enabled, used by the C6 witness. -/
def dOn : DbMapT := ⟨true⟩

/-- Witness for claim C6 at concrete inputs: the traced exec over the
concrete executor emits one trace entry and forwards the inner result. -/
theorem tracingHandle_spec_witness :
    (tracingHandle dOn (txHandle txConst)).Exec "select 1" [2]
      = (⟨"select 1", [2]⟩ :: ((txHandle txConst).Exec "select 1" [2]).1,
         ((txHandle txConst).Exec "select 1" [2]).2) :=
  (tracingHandle_spec dOn (txHandle txConst) .live 0 "select 1" [2]
    rfl).2.2.2.2.1

/-- Claim C10: the handle a Transaction supplies to the engine is always the
tracing handle over the transactional executor holding the owning registry,
so every transactional statement passes through the registry's trace call
before execution, whether or not tracing is enabled (when it is off the
trace call contributes nothing to the sink). -/
theorem transaction_handle_is_traced (t : Transaction) (c : Ctx) (dest : Nat)
    (q : String) (a : List Nat) :
    Transaction.handle t = tracingHandle t.dbmap (txHandle t.Tx)
    ∧ (Transaction.handle t).Exec q a
      = (trace t.dbmap q a ++ ((txHandle t.Tx).Exec q a).1,
         ((txHandle t.Tx).Exec q a).2)
    ∧ (Transaction.handle t).ExecContext c q a
      = (trace t.dbmap q a ++ ((txHandle t.Tx).ExecContext c q a).1,
         ((txHandle t.Tx).ExecContext c q a).2)
    ∧ (Transaction.handle t).SelectContext c dest q a
      = (trace t.dbmap q a ++ ((txHandle t.Tx).SelectContext c dest q a).1,
         ((txHandle t.Tx).SelectContext c dest q a).2)
    ∧ (Transaction.handle t).GetContext c dest q a
      = (trace t.dbmap q a ++ ((txHandle t.Tx).GetContext c dest q a).1,
         ((txHandle t.Tx).GetContext c dest q a).2) :=
  ⟨rfl, rfl, rfl, rfl, rfl⟩

end Modl
